import Mathlib

/-!
# Verification of the multi-objective NAS training/search loops

Shallow embedding of the two driver scripts of the repository
(`mnist/search.py` and `kws/fine-tune.py`) and proofs about their
control flow and bookkeeping: the complexity-aware search loss, the
device fallback and loader construction, the checkpoint selector, the
learning-rate schedules, the dry-run behaviour of the training loop and
the evaluation loop's accuracy/mean-loss arithmetic.

Scalar tensor values are embedded as rationals (`ℚ`); per-layer
dictionaries as association lists; a model's learnable parameter state
as an abstract type `θ` threaded explicitly through the loops.
-/

namespace NAS

/-! ## Per-layer complexity dictionaries

`model.size_dict` / `model.ops_dict` map a layer name to a scalar
complexity estimate; the drivers only ever use `sum(dict.values())`. -/

/-- `sum(d.values())` for a layer-name-keyed dictionary. -/
def dictValuesSum (d : List (String × ℚ)) : ℚ :=
  (d.map Prod.snd).sum

/-! ## Search-mode per-batch loss (`mnist/search.py`, `train`, lines 140-148)

Per batch the code computes
  `loss = F.nll_loss(output, target)`,
  `loss_size = torch.abs(sum(model.size_dict.values()) - args.size_target)`,
  `loss_size *= args.cd_size`,
  `loss_ops = sum(model.ops_dict.values())`, `loss_ops *= args.cd_ops`,
  `loss += loss_size + loss_ops`. -/

/-- The search driver's command-line coefficients used in the loss. -/
structure SearchArgs where
  cd_size : ℚ
  cd_ops : ℚ
  size_target : ℚ
deriving DecidableEq

/-- The three loss scalars computed for one batch of the search train loop. -/
structure BatchLosses where
  loss : ℚ
  loss_size : ℚ
  loss_ops : ℚ
deriving DecidableEq

/-- One batch of `train` in `mnist/search.py`: `nllLoss` is the value of
`F.nll_loss(output, target)` for this batch; `size_dict`/`ops_dict` are the
model's complexity dictionaries at this point of the run. -/
def searchBatchLosses (args : SearchArgs) (nllLoss : ℚ)
    (size_dict ops_dict : List (String × ℚ)) : BatchLosses :=
  let loss := nllLoss
  let loss_size := |dictValuesSum size_dict - args.size_target| * args.cd_size
  let loss_ops := dictValuesSum ops_dict * args.cd_ops
  { loss := loss + (loss_size + loss_ops), loss_size := loss_size, loss_ops := loss_ops }

/-! ## Device selection and data-loader construction

Both drivers compute `use_cuda = not args.no_cuda and torch.cuda.is_available()`
and `device = torch.device("cuda" if use_cuda else "cpu")`.

`mnist/search.py` (lines 79-97) builds `train_kwargs`/`test_kwargs` holding the
batch sizes, merges `cuda_kwargs = {num_workers: 1, pin_memory: True,
shuffle: True}` into them only when `use_cuda`, and constructs both loaders
with those kwargs — this path succeeds with or without CUDA.

`kws/fine-tune.py` (lines 88-151) builds the same `train_kwargs`/`test_kwargs`
(with `num_workers: 4`) but then never uses them: every one of its three
`DataLoader` calls is `DataLoader(set, batch_size=..., **cuda_kwargs)`, and the
name `cuda_kwargs` is bound only inside the `if use_cuda:` block, so when
`use_cuda` is false Python raises `NameError` before any loader exists. -/

/-- The device the run is placed on. -/
inductive Device where
  | cuda : Device
  | cpu : Device
deriving DecidableEq

/-- `use_cuda = not args.no_cuda and torch.cuda.is_available()`. -/
def useCuda (no_cuda cuda_available : Bool) : Bool :=
  !no_cuda && cuda_available

/-- `device = torch.device("cuda" if use_cuda else "cpu")`. -/
def selectDevice (no_cuda cuda_available : Bool) : Device :=
  if useCuda no_cuda cuda_available then Device.cuda else Device.cpu

/-- Keyword arguments with which a `torch.utils.data.DataLoader` is built
(unspecified arguments take the PyTorch defaults `num_workers=0`,
`pin_memory=False`, `shuffle=False`). -/
structure DLKwargs where
  batch_size : ℕ
  num_workers : ℕ
  pin_memory : Bool
  shuffle : Bool
deriving DecidableEq

/-- `mnist/search.py` loader construction: the two loaders are built from
`train_kwargs`/`test_kwargs`, which hold the batch sizes and, only when
`use_cuda`, the merged cuda kwargs `{num_workers: 1, pin_memory: True,
shuffle: True}`. Returns the device and the (train, test) loader kwargs;
this construction cannot fail. -/
def searchMakeLoaders (no_cuda cuda_available : Bool) (bs tbs : ℕ) :
    Except String (Device × DLKwargs × DLKwargs) :=
  let uc := useCuda no_cuda cuda_available
  let train_kwargs : DLKwargs :=
    if uc then ⟨bs, 1, true, true⟩ else ⟨bs, 0, false, false⟩
  let test_kwargs : DLKwargs :=
    if uc then ⟨tbs, 1, true, true⟩ else ⟨tbs, 0, false, false⟩
  Except.ok (selectDevice no_cuda cuda_available, train_kwargs, test_kwargs)

/-- `kws/fine-tune.py` loader construction: `cuda_kwargs` is bound only when
`use_cuda` (modelled by the `Option`), yet all three `DataLoader` calls splat
`**cuda_kwargs`; with `use_cuda` false the lookup of the unbound name raises
`NameError`. On the cuda path the three loaders get batch sizes
(train, test, val) = (`bs`, `tbs`, `tbs`) and the cuda kwargs
`{num_workers: 4, pin_memory: True, shuffle: True}`. -/
def fineTuneMakeLoaders (no_cuda cuda_available : Bool) (bs tbs : ℕ) :
    Except String (Device × DLKwargs × DLKwargs × DLKwargs) :=
  let uc := useCuda no_cuda cuda_available
  let cuda_kwargs : Option (ℕ × Bool × Bool) :=
    if uc then some (4, true, true) else none
  match cuda_kwargs with
  | none => Except.error "NameError: name cuda_kwargs is not defined"
  | some (nw, pm, sh) =>
      Except.ok (selectDevice no_cuda cuda_available,
        ⟨bs, nw, pm, sh⟩, ⟨tbs, nw, pm, sh⟩, ⟨tbs, nw, pm, sh⟩)

/-! ## Fine-tune learning-rate schedule (`kws/fine-tune.py`, lines 172-182) -/

/-- `adjust_learning_rate(optimizer, epoch)`: the rate written into every
parameter group (`1e-2 = 1/100`, `5e-3 = 5/1000`, `2.5e-3 = 25/10000`,
`1e-3 = 1/1000`). -/
def adjust_learning_rate (epoch : ℕ) : ℚ :=
  if epoch < 50 then 1/100
  else if epoch < 100 then 5/1000
  else if epoch < 150 then 25/10000
  else 1/1000

/-! ## Training loop batch/log counting (`train` in both drivers)

Both `train` functions have the same control flow:
`for batch_idx, (data, target) in enumerate(train_loader):` run
zero_grad / forward / loss / backward / `optimizer.step()`, then
`if batch_idx % args.log_interval == 0:` print one progress line and,
inside that branch, `if args.dry_run: break`.  The embedding counts
optimizer steps and printed progress lines over a loader given as the
list of its batches. -/

/-- Number of optimizer steps taken and progress lines printed by one
call of `train`. -/
structure TrainStats where
  steps : ℕ
  logs : ℕ
deriving DecidableEq

/-- The batch loop of `train`: `batch_idx` is the enumeration index,
`s` the counters so far. Every batch costs one optimizer step; a log
line is printed when `batch_idx % log_interval == 0`, and `dry_run`
breaks out of the loop inside the logging branch. -/
def trainLoopGo {β : Type} (log_interval : ℕ) (dry_run : Bool) :
    List β → ℕ → TrainStats → TrainStats
  | [], _, s => s
  | _ :: rest, batch_idx, s =>
      let s1 : TrainStats := ⟨s.steps + 1, s.logs⟩
      if batch_idx % log_interval = 0 then
        (if dry_run then ⟨s1.steps, s1.logs + 1⟩
         else trainLoopGo log_interval dry_run rest (batch_idx + 1)
                ⟨s1.steps, s1.logs + 1⟩)
      else trainLoopGo log_interval dry_run rest (batch_idx + 1) s1

/-- One call of `train` on a loader with the given list of batches. -/
def trainLoop {β : Type} (log_interval : ℕ) (dry_run : Bool)
    (loader : List β) : TrainStats :=
  trainLoopGo log_interval dry_run loader 0 ⟨0, 0⟩

/-! ## Learning-rate sequencing of the fine-tune main loop
(`kws/fine-tune.py`, lines 157-163)

The epoch loop runs `train(...)` first and only afterwards calls
`adjust_learning_rate(optimizer, epoch)`; the optimizer is constructed
with `lr=args.lr`.  `lrTrace initLr epochs` records, in order, the pair
(epoch, optimizer learning rate in force while that epoch's `train` ran). -/

/-- Epoch loop of the fine-tune driver, tracking only the optimizer's
learning rate: each epoch `e` trains at the current rate `lr` (recorded
in the trace) and then `adjust_learning_rate(optimizer, e)` overwrites it. -/
def lrTraceGo : List ℕ → ℚ → List (ℕ × ℚ) → List (ℕ × ℚ)
  | [], _, tr => tr
  | e :: es, lr, tr => lrTraceGo es (adjust_learning_rate e) (tr ++ [(e, lr)])

/-- The (epoch, training-time learning rate) trace of a fine-tune run of
`epochs` epochs starting from the CLI rate `initLr`. -/
def lrTrace (initLr : ℚ) (epochs : ℕ) : List (ℕ × ℚ) :=
  lrTraceGo (List.range' 1 epochs) initLr []

/-- Closed form of the trace: epoch `a` (the first of the remaining
epochs) trains at the incoming rate, every later epoch `e` at
`adjust_learning_rate (e - 1)`. -/
theorem lrTraceGo_range' (k : ℕ) : ∀ (a : ℕ) (lr : ℚ) (tr : List (ℕ × ℚ)),
    lrTraceGo (List.range' a k) lr tr =
      tr ++ (List.range' a k).map
        (fun e => (e, if e = a then lr else adjust_learning_rate (e - 1))) := by
  induction k with
  | zero => intro a lr tr; simp [lrTraceGo]
  | succ k ih =>
      intro a lr tr
      rw [List.range'_succ]
      have step : lrTraceGo (a :: List.range' (a + 1) k) lr tr
          = lrTraceGo (List.range' (a + 1) k) (adjust_learning_rate a)
              (tr ++ [(a, lr)]) := rfl
      rw [step, ih (a + 1) (adjust_learning_rate a) (tr ++ [(a, lr)])]
      have hm : List.map
            (fun e => ((e : ℕ),
              if e = a + 1 then adjust_learning_rate a
              else adjust_learning_rate (e - 1))) (List.range' (a + 1) k)
          = List.map
            (fun e => ((e : ℕ),
              if e = a then lr else adjust_learning_rate (e - 1)))
            (List.range' (a + 1) k) := by
        apply List.map_congr_left
        intro e he
        have h1 : a + 1 ≤ e := (List.mem_range'_1.mp he).1
        by_cases h2 : e = a + 1
        · subst h2
          have h4 : a + 1 ≠ a := by omega
          simp [h4]
        · have h3 : e ≠ a := by omega
          simp [h2, h3]
      rw [hm, List.append_assoc, List.singleton_append, List.map_cons, if_pos rfl]

/-- The learning rate in force during epoch `n` of a fine-tune run:
`initLr` for epoch 1, `adjust_learning_rate (n - 1)` for later epochs. -/
theorem lrTrace_getD (initLr : ℚ) (epochs n : ℕ) (h1 : 1 ≤ n) (h2 : n ≤ epochs) :
    (lrTrace initLr epochs).getD (n - 1) (0, 0) =
      (n, if n = 1 then initLr else adjust_learning_rate (n - 1)) := by
  have hlen : n - 1 < ((List.range' 1 epochs).map
      (fun e => (e, if e = 1 then initLr else adjust_learning_rate (e - 1)))).length := by
    simp [List.length_range']; omega
  rw [lrTrace, lrTraceGo_range', List.nil_append, List.getD_eq_getElem _ _ hlen]
  have hidx : n - 1 < epochs := by omega
  simp only [List.getElem_map, List.getElem_range']
  have heq : 1 + 1 * (n - 1) = n := by omega
  rw [heq]

/-! ## Evaluation loop (`test` in both drivers)

Both `test` functions run the model under `model.eval()` and
`torch.no_grad()` over every batch of a loader, accumulate
`test_loss += loss(output, target, reduction='sum')` and
`correct += (output.argmax(dim=1) == target).sum()`, divide the loss by
`len(test_loader.dataset)` and print
`Average loss / Accuracy: correct/N (100.*correct/N %)`.
`kws/fine-tune.py`'s `test` then `return 100. * correct / len(...)`;
`mnist/search.py`'s `test` has no return statement (it returns `None`).

A loader is embedded as the list of its batches, each batch a list of
samples; the model's forward pass as a function from input to the
per-class score list; the per-sample loss as a function of (scores,
label). -/

/-- One (input, label) sample of a dataset. -/
structure Sample (α : Type) where
  data : α
  target : ℕ
deriving DecidableEq

/-- Tail of `argmax`: scan the remaining scores, keeping the index `bi` of
the best value `bv` seen so far; a strictly greater score takes over, so
ties resolve to the first maximum (torch.argmax semantics). -/
def argmaxGo : List ℚ → ℕ → ℕ → ℚ → ℕ
  | [], _, bi, _ => bi
  | x :: xs, i, bi, bv =>
      if bv < x then argmaxGo xs (i + 1) i x else argmaxGo xs (i + 1) bi bv

/-- `output.argmax`: index of the (first) maximal score; 0 on the empty list. -/
def argmax : List ℚ → ℕ
  | [] => 0
  | x :: xs => argmaxGo xs 1 0 x

/-- One batch's `loss(output, target, reduction='sum')`: the sum of the
per-sample losses of the batch. -/
def batchLossSum {α : Type} (lossFn : List ℚ → ℕ → ℚ) (forward : α → List ℚ)
    (batch : List (Sample α)) : ℚ :=
  (batch.map (fun s => lossFn (forward s.data) s.target)).sum

/-- One batch's `pred.eq(target.view_as(pred)).sum()`: how many samples of
the batch have `argmax` of the model output equal to the label. -/
def batchCorrect {α : Type} (forward : α → List ℚ)
    (batch : List (Sample α)) : ℕ :=
  (batch.filter (fun s => argmax (forward s.data) == s.target)).length

/-- The batch loop of `test`: accumulates `test_loss` and `correct` over
the remaining batches. -/
def evalLoopGo {α : Type} (lossFn : List ℚ → ℕ → ℚ) (forward : α → List ℚ) :
    List (List (Sample α)) → ℚ → ℕ → ℚ × ℕ
  | [], test_loss, correct => (test_loss, correct)
  | b :: bs, test_loss, correct =>
      evalLoopGo lossFn forward bs (test_loss + batchLossSum lossFn forward b)
        (correct + batchCorrect forward b)

/-- `len(test_loader.dataset)`: the number of samples the loader batches. -/
def datasetSize {α : Type} (loader : List (List (Sample α))) : ℕ :=
  loader.flatten.length

/-- What one call of `test` reports: average loss `test_loss / N`,
the counts `correct`/`N`, and the percentage `100. * correct / N`. -/
structure EvalReport where
  avgLoss : ℚ
  correct : ℕ
  total : ℕ
  accuracy : ℚ
deriving DecidableEq

/-- The report computed (and printed) by one call of `test` on a loader. -/
def evalReport {α : Type} (lossFn : List ℚ → ℕ → ℚ) (forward : α → List ℚ)
    (loader : List (List (Sample α))) : EvalReport :=
  { avgLoss := (evalLoopGo lossFn forward loader 0 0).1 / (datasetSize loader : ℚ),
    correct := (evalLoopGo lossFn forward loader 0 0).2,
    total := datasetSize loader,
    accuracy := 100 * ((evalLoopGo lossFn forward loader 0 0).2 : ℚ)
      / (datasetSize loader : ℚ) }

/-- `test` of `mnist/search.py`: prints the report; the function body has
no return statement, so the call evaluates to `None`. -/
def searchTest {α : Type} (lossFn : List ℚ → ℕ → ℚ) (forward : α → List ℚ)
    (loader : List (List (Sample α))) : EvalReport × Option ℚ :=
  (evalReport lossFn forward loader, none)

/-- `test` of `kws/fine-tune.py`: prints the report and returns
`100. * correct / len(test_loader.dataset)`. -/
def fineTuneTest {α : Type} (lossFn : List ℚ → ℕ → ℚ) (forward : α → List ℚ)
    (loader : List (List (Sample α))) : EvalReport × Option ℚ :=
  let r := evalReport lossFn forward loader
  (r, some (100 * (r.correct : ℚ) / (r.total : ℚ)))

/-- `test` reads the model's parameter state and never assigns it
(`model.eval()` toggles only the module mode; `torch.no_grad()` suppresses
gradient tracking; the body contains no parameter write), so threading the
state through a call returns it unchanged alongside the report. -/
def evalRun {θ α : Type} (lossFn : List ℚ → ℕ → ℚ) (forward : θ → α → List ℚ)
    (m : θ) (loader : List (List (Sample α))) : θ × EvalReport :=
  (m, evalReport lossFn (forward m) loader)

/-- Closed form of the accumulation loop of `test`: over any batching it
totals the per-sample losses and the per-sample correctness count of the
flattened loader. -/
theorem evalLoopGo_closed {α : Type} (lossFn : List ℚ → ℕ → ℚ)
    (forward : α → List ℚ) :
    ∀ (loader : List (List (Sample α))) (tl : ℚ) (c : ℕ),
    evalLoopGo lossFn forward loader tl c =
      (tl + (loader.flatten.map (fun s => lossFn (forward s.data) s.target)).sum,
       c + (loader.flatten.filter (fun s => argmax (forward s.data) == s.target)).length) := by
  intro loader
  induction loader with
  | nil => intro tl c; simp [evalLoopGo]
  | cons b bs ih =>
      intro tl c
      simp only [evalLoopGo, ih, List.flatten_cons, List.map_append,
        List.sum_append, List.filter_append, List.length_append,
        batchLossSum, batchCorrect, Prod.mk.injEq]
      constructor
      · ring
      · omega

/-! ## Fine-tune checkpoint selector (`kws/fine-tune.py`, lines 153-170)

The driver keeps `val_acc`, a dict of per-epoch validation accuracies with
`val_acc["0"] = 0.0`, and `best_epoch = 0`; each epoch `e` of `1..epochs`
stores `val_acc[str(e)]` and runs
`if val_acc[str(e)] >= val_acc[str(best_epoch)]: best_epoch = e` followed
by a checkpoint save.  `selGo` embeds that loop over the list of epoch
numbers, with the dict given up front as the accuracy list `accs`
(`accs[i]` = validation accuracy of epoch `i + 1`) and the saves recorded
as the list of epochs at which the save fired. -/

/-- `val_acc[str(e)]`: 0 at the epoch-0 baseline, else the stored accuracy. -/
def valAcc (accs : List ℚ) (e : ℕ) : ℚ :=
  ((0 : ℚ) :: accs).getD e 0

/-- The selector part of the fine-tune epoch loop over the remaining epoch
numbers `es`: the `>=` comparison against the stored best, updating
`best_epoch` and appending a save event when it fires. -/
def selGo (accs : List ℚ) : List ℕ → ℕ → List ℕ → ℕ × List ℕ
  | [], be, saves => (be, saves)
  | e :: es, be, saves =>
      if valAcc accs be ≤ valAcc accs e
      then selGo accs es e (saves ++ [e])
      else selGo accs es be saves

/-- The whole fine-tune run of the selector: epochs `1..accs.length`,
starting from `best_epoch = 0` and no saves. Returns the final reported
best epoch and the epochs at which a checkpoint was written. -/
def fineTuneSelector (accs : List ℚ) : ℕ × List ℕ :=
  selGo accs (List.range' 1 accs.length) 0 []

/-- Once a save has happened, the first save event is never displaced. -/
theorem selGo_saves_head (accs : List ℚ) :
    ∀ (es : List ℕ) (be s : ℕ) (ss : List ℕ),
    ((selGo accs es be (s :: ss)).2).head? = some s := by
  intro es
  induction es with
  | nil => intro be s ss; simp [selGo]
  | cons e es ih =>
      intro be s ss
      simp only [selGo]
      by_cases h : valAcc accs be ≤ valAcc accs e
      · rw [if_pos h]
        have hc : (s :: ss) ++ [e] = s :: (ss ++ [e]) := rfl
        rw [hc, ih]
      · rw [if_neg h, ih]

/-- Invariant of the selector loop over epochs `a, a+1, ..., a+k-1` with a
running best `be < a`: the final best epoch is the old one or one of the
processed epochs, its stored accuracy dominates the old best and every
processed epoch, and every processed epoch after it is strictly below it
(the `>=` comparison moves the best forward on ties). -/
theorem selGo_range' (accs : List ℚ) (k : ℕ) :
    ∀ (a be : ℕ) (saves : List ℕ), be < a →
    ((selGo accs (List.range' a k) be saves).1 = be ∨
      (a ≤ (selGo accs (List.range' a k) be saves).1 ∧
       (selGo accs (List.range' a k) be saves).1 < a + k)) ∧
    valAcc accs be ≤ valAcc accs (selGo accs (List.range' a k) be saves).1 ∧
    (∀ j, a ≤ j → j < a + k →
      valAcc accs j ≤ valAcc accs (selGo accs (List.range' a k) be saves).1) ∧
    (∀ j, a ≤ j → j < a + k → (selGo accs (List.range' a k) be saves).1 < j →
      valAcc accs j < valAcc accs (selGo accs (List.range' a k) be saves).1) := by
  induction k with
  | zero =>
      intro a be saves hba
      refine ⟨Or.inl rfl, le_refl _, ?_, ?_⟩ <;> intro j h1 h2 <;> omega
  | succ k ih =>
      intro a be saves hba
      rw [List.range'_succ]
      by_cases hcond : valAcc accs be ≤ valAcc accs a
      · have hsel : selGo accs (a :: List.range' (a + 1) k) be saves
            = selGo accs (List.range' (a + 1) k) a (saves ++ [a]) := by
          simp only [selGo, if_pos hcond]
        rw [hsel]
        obtain ⟨h1, h2, h3, h4⟩ := ih (a + 1) a (saves ++ [a]) (by omega)
        refine ⟨?_, le_trans hcond h2, ?_, ?_⟩
        · right; omega
        · intro j hj1 hj2
          by_cases hj : j = a
          · subst hj; exact h2
          · exact h3 j (by omega) (by omega)
        · intro j hj1 hj2 hj3
          by_cases hj : j = a
          · subst hj; omega
          · exact h4 j (by omega) (by omega) hj3
      · have hsel : selGo accs (a :: List.range' (a + 1) k) be saves
            = selGo accs (List.range' (a + 1) k) be saves := by
          simp only [selGo, if_neg hcond]
        rw [hsel]
        obtain ⟨h1, h2, h3, h4⟩ := ih (a + 1) be saves (by omega)
        have hlt : valAcc accs a < valAcc accs be := lt_of_not_le hcond
        refine ⟨?_, h2, ?_, ?_⟩
        · omega
        · intro j hj1 hj2
          by_cases hj : j = a
          · subst hj; exact le_of_lt (lt_of_lt_of_le hlt h2)
          · exact h3 j (by omega) (by omega)
        · intro j hj1 hj2 hj3
          by_cases hj : j = a
          · subst hj; exact lt_of_lt_of_le hlt h2
          · exact h4 j (by omega) (by omega) hj3

/-! ## Checkpoint persistence of the two drivers

The model's serialized parameter state is embedded as an abstract type
`θ`; one epoch of training (`train(args, model, device, train_loader,
optimizer, epoch)` followed by the per-epoch evaluation, neither of which
depends on anything but the epoch number and the incoming state in this
deterministic embedding) is a function `step : ℕ → θ → θ`; the validation
accuracy `test(model, device, val_loader, scope='Validation')` of a state
is `acc : θ → ℚ`.

`mnist/search.py` (lines 117-132) runs the epoch loop with **no** best
tracking (its `test` returns `None` and the result is discarded) and, after
the loop, executes one
`torch.save(model.state_dict(), "saved_models/srch_{arch}_target-{st}_cdops-{cd}.pth.tar")`
with the current — final — state.

`kws/fine-tune.py` (lines 153-170) saves
`"saved_models/ft_{arch}_target-{st}_cdops-{cd}.pth.tar"` inside the
`val_acc[str(epoch)] >= val_acc[str(best_epoch)]` branch, overwriting prior
saves, so the surviving file holds the state of the last epoch that matched
the running maximum. -/

/-- The parameter state after `e` completed training epochs. -/
def statesAfter {θ : Type} (step : ℕ → θ → θ) (init : θ) : ℕ → θ
  | 0 => init
  | e + 1 => step (e + 1) (statesAfter step init e)

/-- The epoch loop of `mnist/search.py`'s `main`: fold the per-epoch
training step over epochs `1..epochs`. -/
def searchLoopFinal {θ : Type} (step : ℕ → θ → θ) (init : θ) (epochs : ℕ) : θ :=
  (List.range' 1 epochs).foldl (fun m e => step e m) init

/-- A persisted checkpoint: the file path and the serialized state. -/
structure SavedCheckpoint (θ : Type) where
  path : String
  state : θ
deriving DecidableEq

/-- The search driver's checkpoint path,
`f"saved_models/srch_{arch}_target-{size_target:.1e}_cdops-{cd_ops:.1e}.pth.tar"`
(the two formatted floats passed as strings). -/
def srchCheckpointPath (arch target cdops : String) : String :=
  "saved_models/srch_" ++ arch ++ "_target-" ++ target ++ "_cdops-"
    ++ cdops ++ ".pth.tar"

/-- The fine-tune driver's checkpoint path,
`f"saved_models/ft_{arch}_target-{size_target:.1e}_cdops-{cd_ops:.1e}.pth.tar"`. -/
def ftCheckpointPath (arch target cdops : String) : String :=
  "saved_models/ft_" ++ arch ++ "_target-" ++ target ++ "_cdops-"
    ++ cdops ++ ".pth.tar"

/-- `mnist/search.py` `main`: run the epoch loop, then save the model's
state dict — the state after the last epoch — at the srch path. -/
def searchMainSave {θ : Type} (step : ℕ → θ → θ) (init : θ) (epochs : ℕ)
    (arch target cdops : String) : SavedCheckpoint θ :=
  ⟨srchCheckpointPath arch target cdops, searchLoopFinal step init epochs⟩

/-- The `val_acc` dict of a fine-tune run: `0` at the epoch-0 baseline,
else the validation accuracy of the state after that epoch's training. -/
def ftValAcc {θ : Type} (step : ℕ → θ → θ) (acc : θ → ℚ) (init : θ)
    (e : ℕ) : ℚ :=
  if e = 0 then 0 else acc (statesAfter step init e)

/-- The fine-tune epoch loop over the remaining epochs: train
(`m' = step e m`), evaluate, and on `val_acc[e] >= val_acc[best_epoch]`
set `best_epoch := e` and overwrite the saved state dict with `m'`. -/
def ftGo {θ : Type} (step : ℕ → θ → θ) (acc : θ → ℚ) (init : θ) :
    List ℕ → θ → ℕ → Option θ → ℕ × Option θ
  | [], _, be, saved => (be, saved)
  | e :: es, m, be, saved =>
      let m' := step e m
      if ftValAcc step acc init be ≤ acc m'
      then ftGo step acc init es m' e (some m')
      else ftGo step acc init es m' be saved

/-- `kws/fine-tune.py` `main`: the epoch loop from `best_epoch = 0` and no
saved file; returns the reported best epoch and the surviving checkpoint. -/
def ftMainSave {θ : Type} (step : ℕ → θ → θ) (acc : θ → ℚ) (init : θ)
    (epochs : ℕ) (arch target cdops : String) :
    ℕ × Option (SavedCheckpoint θ) :=
  let r := ftGo step acc init (List.range' 1 epochs) init 0 none
  (r.1, r.2.map (fun s => ⟨ftCheckpointPath arch target cdops, s⟩))

/-- The search epoch loop is the state-evolution fold: after running
epochs `e+1 .. e+k` from the state after `e` epochs, the model holds the
state after `e+k` epochs. -/
theorem searchLoop_statesAfter {θ : Type} (step : ℕ → θ → θ) (init : θ)
    (k : ℕ) : ∀ e : ℕ,
    (List.range' (e + 1) k).foldl (fun m e' => step e' m)
      (statesAfter step init e) = statesAfter step init (e + k) := by
  induction k with
  | zero => intro e; simp
  | succ k ih =>
      intro e
      rw [List.range'_succ, List.foldl_cons]
      have hs : step (e + 1) (statesAfter step init e)
          = statesAfter step init (e + 1) := rfl
      rw [hs]
      have := ih (e + 1)
      rw [show e + 1 + 1 = e + 1 + 1 from rfl] at this
      rw [show (e + (k + 1)) = (e + 1) + k by omega]
      exact this

/-- Invariant of the fine-tune save loop over epochs `a .. a+k-1`, entered
with the state after `a-1` epochs, a best epoch `1 ≤ be < a` and its state
saved: the final best epoch is the old one or a processed epoch, the saved
checkpoint is exactly the state after the final best epoch, and the final
best epoch's stored accuracy dominates the old best's and every processed
epoch's. -/
theorem ftGo_range' {θ : Type} (step : ℕ → θ → θ) (acc : θ → ℚ) (init : θ)
    (k : ℕ) : ∀ (a be : ℕ), be < a → 1 ≤ be →
    ((ftGo step acc init (List.range' a k) (statesAfter step init (a - 1)) be
        (some (statesAfter step init be))).1 = be ∨
      (a ≤ (ftGo step acc init (List.range' a k) (statesAfter step init (a - 1)) be
        (some (statesAfter step init be))).1 ∧
       (ftGo step acc init (List.range' a k) (statesAfter step init (a - 1)) be
        (some (statesAfter step init be))).1 < a + k)) ∧
    (ftGo step acc init (List.range' a k) (statesAfter step init (a - 1)) be
        (some (statesAfter step init be))).2
      = some (statesAfter step init
          (ftGo step acc init (List.range' a k) (statesAfter step init (a - 1)) be
            (some (statesAfter step init be))).1) ∧
    ftValAcc step acc init be ≤ ftValAcc step acc init
      (ftGo step acc init (List.range' a k) (statesAfter step init (a - 1)) be
        (some (statesAfter step init be))).1 ∧
    (∀ j, a ≤ j → j < a + k →
      ftValAcc step acc init j ≤ ftValAcc step acc init
        (ftGo step acc init (List.range' a k) (statesAfter step init (a - 1)) be
          (some (statesAfter step init be))).1) := by
  induction k with
  | zero =>
      intro a be hba hbe
      refine ⟨Or.inl rfl, rfl, le_refl _, ?_⟩
      intro j h1 h2; omega
  | succ k ih =>
      intro a be hba hbe
      obtain ⟨b, rfl⟩ : ∃ b, a = b + 1 := ⟨a - 1, by omega⟩
      rw [List.range'_succ]
      have hm' : step (b + 1) (statesAfter step init b)
          = statesAfter step init (b + 1) := rfl
      have hva : acc (statesAfter step init (b + 1))
          = ftValAcc step acc init (b + 1) := by
        rw [ftValAcc, if_neg (by omega : ¬ b + 1 = 0)]
      by_cases hcond :
          ftValAcc step acc init be ≤ acc (statesAfter step init (b + 1))
      · have hsel : ftGo step acc init ((b + 1) :: List.range' (b + 1 + 1) k)
              (statesAfter step init (b + 1 - 1)) be
              (some (statesAfter step init be))
            = ftGo step acc init (List.range' (b + 1 + 1) k)
              (statesAfter step init (b + 1 + 1 - 1)) (b + 1)
              (some (statesAfter step init (b + 1))) := by
          simp only [ftGo, Nat.add_sub_cancel, hm', if_pos hcond]
        rw [hsel]
        obtain ⟨h1, h2, h3, h4⟩ := ih (b + 1 + 1) (b + 1) (by omega) (by omega)
        have hcond' : ftValAcc step acc init be ≤ ftValAcc step acc init (b + 1) := by
          rw [← hva]; exact hcond
        refine ⟨by omega, h2, le_trans hcond' h3, ?_⟩
        intro j hj1 hj2
        by_cases hj : j = b + 1
        · subst hj; exact h3
        · exact h4 j (by omega) (by omega)
      · have hsel : ftGo step acc init ((b + 1) :: List.range' (b + 1 + 1) k)
              (statesAfter step init (b + 1 - 1)) be
              (some (statesAfter step init be))
            = ftGo step acc init (List.range' (b + 1 + 1) k)
              (statesAfter step init (b + 1 + 1 - 1)) be
              (some (statesAfter step init be)) := by
          simp only [ftGo, Nat.add_sub_cancel, hm', if_neg hcond]
        rw [hsel]
        obtain ⟨h1, h2, h3, h4⟩ := ih (b + 1 + 1) be (by omega) hbe
        have hlt' : ftValAcc step acc init (b + 1) < ftValAcc step acc init be := by
          rw [← hva]; exact lt_of_not_le hcond
        refine ⟨by omega, h2, h3, ?_⟩
        intro j hj1 hj2
        by_cases hj : j = b + 1
        · subst hj; exact le_of_lt (lt_of_lt_of_le hlt' h3)
        · exact h4 j (by omega) (by omega)

/-- Training step of a concrete two-epoch run: the state is a counter of
completed epochs. -/
def cexStep : ℕ → ℕ → ℕ := fun _ m => m + 1

/-- Validation accuracy of the concrete run: the state after epoch 1
scores 90, every other state 10. -/
def cexAcc : ℕ → ℚ := fun m => if m = 1 then 90 else 10

/-- Definition following the spec's words, for the refinement comparison of
the checkpoint claim: the serialized parameter state of the model with the
best validation accuracy observed during the run (per-epoch accuracies with
the epoch-0 baseline 0.0, ties to the most recent epoch). -/
def specBestValState {θ : Type} (step : ℕ → θ → θ) (acc : θ → ℚ) (init : θ)
    (epochs : ℕ) : θ :=
  statesAfter step init
    ((List.range' 1 epochs).foldl
      (fun b e =>
        if ftValAcc step acc init b ≤ ftValAcc step acc init e then e else b) 0)

/-! ## Theorems -/

/-- **C1.** In search mode, for every batch the total training loss equals the
classification loss plus `cd_size * |aggregate_size - size_target|` plus
`cd_ops * aggregate_ops`, where the aggregates are the sums of the per-layer
size and ops dictionaries; and for `size_target = 0`, `cd_size = 1`, the size
sub-loss equals the current aggregate size exactly (per-layer complexity
estimates are non-negative). -/
theorem C1_search_loss_decomposition (args : SearchArgs) (nllLoss : ℚ)
    (size_dict ops_dict : List (String × ℚ))
    (hnn : ∀ p ∈ size_dict, 0 ≤ p.2) :
    (searchBatchLosses args nllLoss size_dict ops_dict).loss =
      nllLoss + args.cd_size * |dictValuesSum size_dict - args.size_target|
        + args.cd_ops * dictValuesSum ops_dict ∧
    (args.size_target = 0 → args.cd_size = 1 →
      (searchBatchLosses args nllLoss size_dict ops_dict).loss_size =
        dictValuesSum size_dict) := by
  constructor
  · simp only [searchBatchLosses]
    ring
  · intro ht hc
    have hs : 0 ≤ dictValuesSum size_dict := by
      apply List.sum_nonneg
      intro x hx
      rcases List.mem_map.mp hx with ⟨p, hp, rfl⟩
      exact hnn p hp
    simp only [searchBatchLosses, ht, hc, sub_zero, mul_one, abs_of_nonneg hs]

/-- Witness for C1 at a concrete batch: two layers of size 10 and 32,
one ops entry 100, classification loss 2, `cd_size = 1`, `size_target = 0`,
`cd_ops = 1/2`. -/
theorem C1_witness :
    (∀ p ∈ [("conv1", (10 : ℚ)), ("conv2", 32)], 0 ≤ p.2) ∧
    (searchBatchLosses ⟨1, 1/2, 0⟩ 2 [("conv1", 10), ("conv2", 32)]
        [("conv1", (100 : ℚ))]).loss = 2 + 1 * |(42 : ℚ) - 0| + (1/2) * 100 ∧
    (searchBatchLosses ⟨1, 1/2, 0⟩ 2 [("conv1", 10), ("conv2", 32)]
        [("conv1", (100 : ℚ))]).loss_size = 42 := by
  refine ⟨by decide, ?_⟩
  have h := C1_search_loss_decomposition ⟨1, 1/2, 0⟩ 2
    [("conv1", 10), ("conv2", 32)] [("conv1", (100 : ℚ))] (by decide)
  exact ⟨by rw [h.1]; norm_num [dictValuesSum], by rw [h.2 rfl rfl]; norm_num [dictValuesSum]⟩

/-- **C2.** Evaluating the drivers' loader construction with the accelerator
requested but unavailable: the search driver falls back to the cpu device and
constructs its loaders, but the fine-tune driver's construction raises
`NameError` (reading the unbound `cuda_kwargs`), contradicting the claim that
each driver completes loader construction without failing. Checked both for
CUDA absent (`cuda_available = false`) and for CUDA disabled
(`no_cuda = true`), at the drivers' default batch sizes. -/
theorem C2_fine_tune_loader_name_error :
    (searchMakeLoaders false false 64 1000 =
      Except.ok (Device.cpu, ⟨64, 0, false, false⟩, ⟨1000, 0, false, false⟩)) ∧
    (fineTuneMakeLoaders false false 128 1000 =
      Except.error "NameError: name cuda_kwargs is not defined") ∧
    (fineTuneMakeLoaders true true 128 1000 =
      Except.error "NameError: name cuda_kwargs is not defined") := by
  refine ⟨rfl, rfl, rfl⟩

/-- **C7.** The fine-tune learning-rate schedule is a pure function of the
epoch index with value `1e-2` below 50, `5e-3` on `[50,100)`, `2.5e-3` on
`[100,150)`, `1e-3` from 150 on, and the exact boundary values at epochs
1, 50, 100 and 150. -/
theorem C7_lr_schedule_values (e : ℕ) :
    (e < 50 → adjust_learning_rate e = 1/100) ∧
    (50 ≤ e → e < 100 → adjust_learning_rate e = 5/1000) ∧
    (100 ≤ e → e < 150 → adjust_learning_rate e = 25/10000) ∧
    (150 ≤ e → adjust_learning_rate e = 1/1000) ∧
    adjust_learning_rate 1 = 1/100 ∧
    adjust_learning_rate 50 = 5/1000 ∧
    adjust_learning_rate 100 = 25/10000 ∧
    adjust_learning_rate 150 = 1/1000 := by
  refine ⟨?_, ?_, ?_, ?_, by norm_num [adjust_learning_rate],
    by norm_num [adjust_learning_rate], by norm_num [adjust_learning_rate],
    by norm_num [adjust_learning_rate]⟩
  · intro h
    simp [adjust_learning_rate, h]
  · intro h1 h2
    simp [adjust_learning_rate, Nat.not_lt.mpr h1, h2]
  · intro h1 h2
    simp [adjust_learning_rate, Nat.not_lt.mpr h1,
      Nat.not_lt.mpr (by omega : 50 ≤ e), h2]
  · intro h
    simp [adjust_learning_rate, Nat.not_lt.mpr h,
      Nat.not_lt.mpr (by omega : 100 ≤ e), Nat.not_lt.mpr (by omega : 50 ≤ e)]

/-- Witness for C7 at epoch 120, inside the third interval. -/
theorem C7_witness :
    (100 ≤ 120 ∧ 120 < 150) ∧ adjust_learning_rate 120 = 25/10000 :=
  ⟨by decide, (C7_lr_schedule_values 120).2.2.1 (by decide) (by decide)⟩

/-- **C4, counterexample.** At the default initial rate `1e-2` the epoch-50
training step still runs at `1e-2`, while the schedule assigns `5e-3` to
epoch 50: the rate is overwritten only after each epoch's training step, so
epoch `n` does not train with the schedule value for `n`. -/
theorem C4_counterexample :
    (lrTrace (1/100) 50).getD 49 (0, 0) = (50, 1/100) ∧
    adjust_learning_rate 50 = 5/1000 ∧ ((1 : ℚ)/100 ≠ 5/1000) := by
  refine ⟨?_, by norm_num [adjust_learning_rate], by norm_num⟩
  have h := lrTrace_getD (1/100) 50 50 (by norm_num) (by norm_num)
  simpa [adjust_learning_rate] using h

/-- **C4, amended.** The fine-tune driver overwrites the optimizer's rate
*after* each epoch's training step, so epoch 1 trains at the CLI initial
rate and every epoch `n ≥ 2` trains at the schedule value for epoch `n - 1`,
not the value for `n`. -/
theorem C4_lr_applied_after_epoch (initLr : ℚ) (epochs n : ℕ)
    (h1 : 1 ≤ n) (h2 : n ≤ epochs) :
    (lrTrace initLr epochs).getD (n - 1) (0, 0) =
      (n, if n = 1 then initLr else adjust_learning_rate (n - 1)) :=
  lrTrace_getD initLr epochs n h1 h2

/-- Witness for the amended C4: a 3-epoch run at initial rate 1; epoch 2
trains at the schedule value for epoch 1. -/
theorem C4_witness :
    (1 ≤ 2 ∧ 2 ≤ 3) ∧
    (lrTrace 1 3).getD 1 (0, 0) =
      (2, if 2 = 1 then (1 : ℚ) else adjust_learning_rate 1) :=
  ⟨by decide, C4_lr_applied_after_epoch 1 3 2 (by decide) (by decide)⟩

/-- **C6.** With the dry-run flag set, for every loader with at least one
batch and every positive log interval, one call of the training loop takes
exactly one optimizer step and prints exactly one progress line, regardless
of the loader's length. -/
theorem C6_dry_run_single_batch {β : Type} (log_interval : ℕ)
    (loader : List β) (hl : loader ≠ []) (hi : 0 < log_interval) :
    trainLoop log_interval true loader = ⟨1, 1⟩ := by
  cases loader with
  | nil => exact absurd rfl hl
  | cons b rest => simp [trainLoop, trainLoopGo, Nat.zero_mod]

/-- **C5, counterexample.** A two-epoch search run whose epoch-1 model has
validation accuracy 90 and epoch-2 model accuracy 10: the persisted search
checkpoint holds the final state (2), not the best-validation state (1), so
the claim fails for the search driver — `mnist/search.py` tracks no best
accuracy and saves once, after the loop. -/
theorem C5_counterexample :
    (searchMainSave cexStep 0 2 "plain_cnn" "0.0e+00" "0.0e+00").state = 2 ∧
    specBestValState cexStep cexAcc 0 2 = 1 ∧ (2 : ℕ) ≠ 1 := by
  refine ⟨rfl, ?_, by decide⟩
  show statesAfter cexStep 0
      ((List.range' 1 2).foldl
        (fun b e =>
          if ftValAcc cexStep cexAcc 0 b ≤ ftValAcc cexStep cexAcc 0 e
          then e else b) 0) = 1
  have h1 : ftValAcc cexStep cexAcc 0 0 ≤ ftValAcc cexStep cexAcc 0 1 := by
    norm_num [ftValAcc, cexAcc, statesAfter, cexStep]
  have h2 : ¬ ftValAcc cexStep cexAcc 0 1 ≤ ftValAcc cexStep cexAcc 0 2 := by
    norm_num [ftValAcc, cexAcc, statesAfter, cexStep]
  have hr : List.range' 1 2 = [1, 2] := rfl
  rw [hr, List.foldl_cons, if_pos h1, List.foldl_cons, if_neg h2, List.foldl_nil]
  rfl

/-- **C5, amended.** The checkpoint paths are built from the architecture
name, size target and ops-decay coefficient with prefixes `srch_` / `ft_`,
and the persisted state is: for the search driver the state after the
*final* epoch (no best tracking), and for the fine-tune driver the state
after the reported best epoch — whose validation accuracy dominates every
epoch of the run. -/
theorem C5_checkpoint_contents {θ : Type} (step : ℕ → θ → θ) (acc : θ → ℚ)
    (init : θ) (epochs : ℕ) (arch target cdops : String)
    (hE : 1 ≤ epochs)
    (hnn : ∀ e, 1 ≤ e → e ≤ epochs → 0 ≤ acc (statesAfter step init e)) :
    searchMainSave step init epochs arch target cdops
      = ⟨srchCheckpointPath arch target cdops, statesAfter step init epochs⟩ ∧
    1 ≤ (ftMainSave step acc init epochs arch target cdops).1 ∧
    (ftMainSave step acc init epochs arch target cdops).1 ≤ epochs ∧
    (ftMainSave step acc init epochs arch target cdops).2
      = some ⟨ftCheckpointPath arch target cdops,
          statesAfter step init
            (ftMainSave step acc init epochs arch target cdops).1⟩ ∧
    (∀ e, 1 ≤ e → e ≤ epochs →
      acc (statesAfter step init e) ≤
        acc (statesAfter step init
          (ftMainSave step acc init epochs arch target cdops).1)) := by
  have hsearch : searchMainSave step init epochs arch target cdops
      = ⟨srchCheckpointPath arch target cdops, statesAfter step init epochs⟩ := by
    unfold searchMainSave searchLoopFinal
    have h := searchLoop_statesAfter step init epochs 0
    simp only [Nat.zero_add] at h
    rw [← h]
    rfl
  obtain ⟨E, rfl⟩ : ∃ E, epochs = E + 1 := ⟨epochs - 1, by omega⟩
  have hc1 : ftValAcc step acc init 0 ≤ acc (step 1 init) := by
    have hn := hnn 1 (le_refl 1) (by omega)
    have hs : statesAfter step init 1 = step 1 init := rfl
    rw [hs] at hn
    simpa [ftValAcc] using hn
  have hunroll : ftGo step acc init (List.range' 1 (E + 1)) init 0 none
      = ftGo step acc init (List.range' 2 E) (statesAfter step init (2 - 1)) 1
          (some (statesAfter step init 1)) := by
    rw [List.range'_succ]
    have hgo : ftGo step acc init (1 :: List.range' (1 + 1) E) init 0 none
        = if ftValAcc step acc init 0 ≤ acc (step 1 init)
          then ftGo step acc init (List.range' (1 + 1) E) (step 1 init) 1
                 (some (step 1 init))
          else ftGo step acc init (List.range' (1 + 1) E) (step 1 init) 0
                 none := rfl
    rw [hgo, if_pos hc1]
    rfl
  have hms : ftMainSave step acc init (E + 1) arch target cdops
      = ((ftGo step acc init (List.range' 2 E)
            (statesAfter step init (2 - 1)) 1
            (some (statesAfter step init 1))).1,
         (ftGo step acc init (List.range' 2 E)
            (statesAfter step init (2 - 1)) 1
            (some (statesAfter step init 1))).2.map
           (fun s => ⟨ftCheckpointPath arch target cdops, s⟩)) := by
    simp only [ftMainSave, hunroll]
  obtain ⟨h1, h2, h3, h4⟩ := ftGo_range' step acc init E 2 1 (by omega) (le_refl 1)
  have hbe : 1 ≤ (ftGo step acc init (List.range' 2 E)
      (statesAfter step init (2 - 1)) 1 (some (statesAfter step init 1))).1 := by
    omega
  have hconv : ∀ m, 1 ≤ m →
      ftValAcc step acc init m = acc (statesAfter step init m) := by
    intro m hm
    rw [ftValAcc, if_neg (by omega : ¬ m = 0)]
  refine ⟨hsearch, ?_, ?_, ?_, ?_⟩
  · rw [hms]; exact hbe
  · rw [hms]; omega
  · rw [hms]
    simp only [h2, Option.map_some']
  · intro e he1 he2
    rw [hms]
    rw [← hconv e he1, ← hconv _ hbe]
    by_cases he : e = 1
    · subst he; exact h3
    · exact h4 e (by omega) (by omega)

/-- Witness for the amended C5: the concrete two-epoch run; the surviving
fine-tune checkpoint holds the state after the reported best epoch. -/
theorem C5_witness :
    (1 ≤ 2 ∧ ∀ e, 1 ≤ e → e ≤ 2 → 0 ≤ cexAcc (statesAfter cexStep 0 e)) ∧
    (ftMainSave cexStep cexAcc 0 2 "net" "1.0e+00" "0.0e+00").2
      = some ⟨ftCheckpointPath "net" "1.0e+00" "0.0e+00",
          statesAfter cexStep 0
            (ftMainSave cexStep cexAcc 0 2 "net" "1.0e+00" "0.0e+00").1⟩ :=
  ⟨⟨by decide, by intro e h1 h2; unfold cexAcc; split <;> norm_num⟩,
    (C5_checkpoint_contents cexStep cexAcc 0 2 "net" "1.0e+00" "0.0e+00"
      (by decide)
      (by intro e h1 h2; unfold cexAcc; split <;> norm_num)).2.2.2.1⟩

/-- Witness for C6: a three-batch loader with log interval 10. -/
theorem C6_witness :
    ([0, 1, 2] ≠ ([] : List ℕ) ∧ 0 < 10) ∧
    trainLoop 10 true [0, 1, 2] = ⟨1, 1⟩ :=
  ⟨by decide, C6_dry_run_single_batch 10 [0, 1, 2] (by decide) (by decide)⟩

/-- `val_acc[str(j + 1)]` is the `j`-th stored accuracy. -/
theorem valAcc_succ (accs : List ℚ) (j : ℕ) :
    valAcc accs (j + 1) = accs.getD j 0 := rfl

/-- **C3.** For every non-empty sequence of non-negative per-epoch
validation accuracies, the fine-tune driver's final best epoch is the last
epoch index achieving the maximum of the sequence — it lies in
`1..accs.length`, its accuracy dominates every epoch's, and every strictly
later epoch is strictly below it (ties resolve to the most recent epoch) —
and the epoch-0 baseline accuracy 0.0 makes epoch 1 fire the first
checkpoint save. -/
theorem C3_best_epoch_last_argmax (accs : List ℚ) (hne : accs ≠ [])
    (hnn : ∀ x ∈ accs, 0 ≤ x) :
    1 ≤ (fineTuneSelector accs).1 ∧
    (fineTuneSelector accs).1 ≤ accs.length ∧
    (∀ j, j < accs.length →
      accs.getD j 0 ≤ accs.getD ((fineTuneSelector accs).1 - 1) 0) ∧
    (∀ j, (fineTuneSelector accs).1 ≤ j → j < accs.length →
      accs.getD j 0 < accs.getD ((fineTuneSelector accs).1 - 1) 0) ∧
    (fineTuneSelector accs).2.head? = some 1 := by
  have h0 : 0 < accs.length := List.length_pos.mpr hne
  have hcond : valAcc accs 0 ≤ valAcc accs 1 := by
    have hz : valAcc accs 0 = 0 := rfl
    rw [hz, valAcc_succ, List.getD_eq_getElem _ _ h0]
    exact hnn _ (List.getElem_mem h0)
  have hsel : fineTuneSelector accs
      = selGo accs (List.range' 2 (accs.length - 1)) 1 [1] := by
    unfold fineTuneSelector
    conv_lhs => rw [show accs.length = (accs.length - 1) + 1 by omega]
    rw [List.range'_succ]
    simp only [selGo, if_pos hcond, List.nil_append]
  rw [hsel]
  obtain ⟨h1, h2, h3, h4⟩ :=
    selGo_range' accs (accs.length - 1) 2 1 [1] (by omega)
  have hbe1 : 1 ≤ (selGo accs (List.range' 2 (accs.length - 1)) 1 [1]).1 := by
    omega
  refine ⟨hbe1, by omega, ?_, ?_, selGo_saves_head accs _ 1 1 []⟩
  · intro j hj
    have he : ((selGo accs (List.range' 2 (accs.length - 1)) 1 [1]).1 - 1) + 1
        = (selGo accs (List.range' 2 (accs.length - 1)) 1 [1]).1 := by omega
    rw [← valAcc_succ accs j, ← valAcc_succ accs _, he]
    by_cases hj0 : j = 0
    · subst hj0; exact h2
    · exact h3 (j + 1) (by omega) (by omega)
  · intro j hjge hjlt
    have he : ((selGo accs (List.range' 2 (accs.length - 1)) 1 [1]).1 - 1) + 1
        = (selGo accs (List.range' 2 (accs.length - 1)) 1 [1]).1 := by omega
    rw [← valAcc_succ accs j, ← valAcc_succ accs _, he]
    exact h4 (j + 1) (by omega) (by omega) (by omega)

/-- Witness for C3: accuracies 50, 70, 70, 60 — the maximum 70 is reached
at epochs 2 and 3, the reported best epoch is 3, and the first save fired
at epoch 1. -/
theorem C3_witness :
    (fineTuneSelector [50, 70, 70, 60]).1 = 3 ∧
    (fineTuneSelector [50, 70, 70, 60]).2.head? = some 1 :=
  ⟨by decide,
    (C3_best_epoch_last_argmax [50, 70, 70, 60] (by decide) (by decide)).2.2.2.2⟩

/-- A concrete two-sample evaluation scenario: inputs are naturals, the
model scores input `n` as `[n, 0]`, the per-sample loss is constantly 1.
Sample ⟨0,0⟩ is classified correctly (argmax of `[0,0]` is 0), sample
⟨1,1⟩ is not (argmax of `[1,0]` is 0). -/
def exForward : ℕ → List ℚ := fun n => [(n : ℚ), 0]

/-- Constant per-sample loss for the concrete evaluation scenario. -/
def exLossFn : List ℚ → ℕ → ℚ := fun _ _ => 1

/-- Single-batch loader of the concrete evaluation scenario. -/
def exLoader : List (List (Sample ℕ)) := [[⟨0, 0⟩, ⟨1, 1⟩]]

/-- **C8, counterexample.** On a concrete two-sample loader the search
driver's `test` computes (and prints) accuracy 50 but evaluates to `None`:
it does not return the scalar accuracy percentage, so the claim fails for
the search driver (the fine-tune driver's `test` does return it). -/
theorem C8_counterexample :
    (searchTest exLossFn exForward exLoader).2 = none ∧
    (searchTest exLossFn exForward exLoader).1.accuracy = 50 ∧
    (searchTest exLossFn exForward exLoader).2 ≠
      some ((searchTest exLossFn exForward exLoader).1.accuracy) ∧
    (fineTuneTest exLossFn exForward exLoader).2 = some 50 := by
  refine ⟨rfl, ?_, by simp [searchTest], ?_⟩
  · show 100 * ((evalLoopGo exLossFn exForward exLoader 0 0).2 : ℚ)
        / (datasetSize exLoader : ℚ) = 50
    norm_num [evalLoopGo, batchCorrect, batchLossSum, datasetSize, exLoader,
      exForward, argmax, argmaxGo]
  · show (some (100 * (((evalLoopGo exLossFn exForward exLoader 0 0).2 : ℕ) : ℚ)
        / (datasetSize exLoader : ℚ)) : Option ℚ) = some 50
    norm_num [evalLoopGo, batchCorrect, batchLossSum, datasetSize, exLoader,
      exForward, argmax, argmaxGo]

/-- **C8, amended.** For every model and loader over a non-empty dataset of
`N` samples, both drivers' evaluation loops compute the accuracy percentage
`100 * correct / N` — `correct` the number of samples whose predicted class
(argmax of the model output) equals the label — and the mean loss (summed
per-sample losses divided by `N`); the fine-tune `test` returns the scalar
accuracy, while the search `test` only prints it and returns `None`. -/
theorem C8_eval_report {α : Type} (lossFn : List ℚ → ℕ → ℚ)
    (forward : α → List ℚ) (loader : List (List (Sample α)))
    (h : 0 < datasetSize loader) :
    evalReport lossFn forward loader =
      { avgLoss := (loader.flatten.map (fun s => lossFn (forward s.data) s.target)).sum
          / (datasetSize loader : ℚ),
        correct := (loader.flatten.filter
          (fun s => argmax (forward s.data) == s.target)).length,
        total := datasetSize loader,
        accuracy := 100 * ((loader.flatten.filter
          (fun s => argmax (forward s.data) == s.target)).length : ℚ)
          / (datasetSize loader : ℚ) } ∧
    (fineTuneTest lossFn forward loader).2 =
      some ((evalReport lossFn forward loader).accuracy) ∧
    (searchTest lossFn forward loader).2 = none := by
  refine ⟨?_, ?_, rfl⟩
  · simp [evalReport, evalLoopGo_closed]
  · simp [fineTuneTest, evalReport]

/-- Witness for the amended C8 at the concrete two-sample scenario. -/
theorem C8_witness :
    0 < datasetSize exLoader ∧
    (fineTuneTest exLossFn exForward exLoader).2 =
      some ((evalReport exLossFn exForward exLoader).accuracy) ∧
    (searchTest exLossFn exForward exLoader).2 = none :=
  ⟨by decide, (C8_eval_report exLossFn exForward exLoader (by decide)).2.1,
    (C8_eval_report exLossFn exForward exLoader (by decide)).2.2⟩

/-- **C9.** The evaluation loop is idempotent: it passes the model's
parameter state through unchanged (no gradient tracking, no parameter
mutation), and two successive calls on the same model and loader produce
identical reports. -/
theorem C9_eval_idempotent {θ α : Type} (lossFn : List ℚ → ℕ → ℚ)
    (forward : θ → α → List ℚ) (m : θ) (loader : List (List (Sample α))) :
    (evalRun lossFn forward m loader).1 = m ∧
    evalRun lossFn forward (evalRun lossFn forward m loader).1 loader
      = evalRun lossFn forward m loader :=
  ⟨rfl, rfl⟩

/-- **C10.** The evaluation result is invariant under re-batching and
re-ordering: two loaders enumerating the same samples (the flattened batch
lists are permutations of each other) produce the same report — the loop
accumulates sum-reduced per-sample losses and correctness counts and
divides by the dataset size only at the end. -/
theorem C10_batching_invariance {α : Type} (lossFn : List ℚ → ℕ → ℚ)
    (forward : α → List ℚ) (la lb : List (List (Sample α)))
    (h : la.flatten.Perm lb.flatten) :
    evalReport lossFn forward la = evalReport lossFn forward lb := by
  have hs : (la.flatten.map (fun s => lossFn (forward s.data) s.target)).sum
      = (lb.flatten.map (fun s => lossFn (forward s.data) s.target)).sum :=
    (h.map _).sum_eq
  have hc : (la.flatten.filter (fun s => argmax (forward s.data) == s.target)).length
      = (lb.flatten.filter (fun s => argmax (forward s.data) == s.target)).length :=
    (h.filter _).length_eq
  have hn : datasetSize la = datasetSize lb := h.length_eq
  simp only [evalReport, evalLoopGo_closed, hs, hc, hn]

/-- Second loader of the batching-invariance witness: the same three
samples as `exLoader2a`, split differently and reordered. -/
def exLoader2b : List (List (Sample ℕ)) := [[⟨2, 0⟩], [⟨1, 1⟩, ⟨0, 0⟩]]

/-- First loader of the batching-invariance witness: three samples in two
batches. -/
def exLoader2a : List (List (Sample ℕ)) := [[⟨0, 0⟩, ⟨1, 1⟩], [⟨2, 0⟩]]

/-- Witness for C10: the two concrete loaders hold the same samples, and
the reports coincide. -/
theorem C10_witness :
    (exLoader2a.flatten.Perm exLoader2b.flatten) ∧
    evalReport exLossFn exForward exLoader2a
      = evalReport exLossFn exForward exLoader2b :=
  ⟨by decide, C10_batching_invariance exLossFn exForward exLoader2a exLoader2b
    (by decide)⟩

end NAS
